import Mathlib

/-!
Shallow embedding of `src/kaitaistruct.py` (class `KaitaiStream`), the
Kaitai Struct python runtime stream engine: a cursor over a byte source
with byte-aligned reads/writes and a sub-byte bit accumulator.

The byte source backing `self._io` (a `BytesIO`-like object) is modelled
as a list of bytes plus a cursor position.  Python `bytes` elements are
naturals in `0..255`; we model them as `Nat` and carry `< 256` bounds as
hypotheses where a property needs them.  Python's unbounded integers map
to `Nat`/`Int`; `x << k`, `x >> k`, `x & m`, `x | m` map to
`Nat.shiftLeft`, `Nat.shiftRight`, `Nat.land`, `Nat.lor`.  Exceptions map
to `Except Err`.
-/

instance {ε α : Type} [DecidableEq ε] [DecidableEq α] : DecidableEq (Except ε α) := fun
  | .ok a, .ok b =>
    if h : a = b then .isTrue (by simp [h]) else .isFalse (by simp [h])
  | .ok _, .error _ => .isFalse (by simp)
  | .error _, .ok _ => .isFalse (by simp)
  | .error e, .error f =>
    if h : e = f then .isTrue (by simp [h]) else .isFalse (by simp [h])

namespace Kaitai

/-- Failure conditions raised by the stream engine:
`ValueError` for a negative read amount, `EOFError` for short reads, and
the bare `Exception`s used by write/term/rotate paths. -/
inductive Err where
  | invalidArg
  | eof
  | other
  deriving DecidableEq, Repr

/-- State of one `KaitaiStream`: the underlying byte source (`self._io`)
as its full contents plus the cursor position, and the bit accumulator
fields `self.bits` / `self.bits_left`. -/
structure ByteStream where
  data : List Nat
  pos : Nat
  bits : Nat
  bitsLeft : Nat
  deriving DecidableEq, Repr

/-- Source `KaitaiStream.__init__`: wrap a source, then `align_to_byte()`
(which sets `bits = 0`, `bits_left = 0`). -/
def mkStream (data : List Nat) : ByteStream :=
  { data := data, pos := 0, bits := 0, bitsLeft := 0 }

/-- Source `KaitaiStream.align_to_byte`: `self.bits = 0; self.bits_left = 0`. -/
def align_to_byte (s : ByteStream) : ByteStream :=
  { s with bits := 0, bitsLeft := 0 }

/-- Source `self._io.read(n)` on a `BytesIO`: return up to `n` bytes from the
current position and advance by however many were returned. -/
def ioRead (s : ByteStream) (n : Nat) : List Nat × ByteStream :=
  let r := (s.data.drop s.pos).take n
  (r, { s with pos := s.pos + r.length })

/-- Source `KaitaiStream.read_bytes(n)`: reject negative `n` (`ValueError`),
read from the source, and fail with `EOFError` when fewer than `n`
bytes came back. -/
def read_bytes (s : ByteStream) (n : Int) : Except Err (List Nat × ByteStream) :=
  if n < 0 then
    .error .invalidArg
  else
    let m := n.toNat
    let (r, s') := ioRead s m
    if r.length < m then .error .eof
    else .ok (r, s')

/-- Source `KaitaiStream.is_eof`: false while the bit accumulator still holds
bits; otherwise probe one byte (`self._io.read(1)`), and if something
came back seek back by one.  The probe-and-seek-back leaves the position
unchanged, so the result is a pure function of the state. -/
def is_eof (s : ByteStream) : Bool :=
  if s.bitsLeft > 0 then false
  else ((s.data.drop s.pos).take 1).isEmpty

/-- Source `KaitaiStream.read_bits_int_be(n)`: top-up loop
`self.bits <<= 8; self.bits |= byte; self.bits_left += 8` per acquired
byte, then extract the top `n` bits of the accumulator window. -/
def read_bits_int_be (s : ByteStream) (n : Nat) : Except Err (Nat × ByteStream) :=
  -- `bits_needed = n - self.bits_left; if bits_needed > 0:` acquire
  -- `bytes_needed = ((bits_needed - 1) // 8) + 1` further bytes
  match (if s.bitsLeft < n then
      read_bytes s (((n - s.bitsLeft - 1) / 8 + 1 : Nat) : Int)
    else .ok ([], s)) with
  | .error e => .error e
  | .ok (buf, s1) =>
    let st := buf.foldl (fun p byte => ((p.1 <<< 8) ||| byte, p.2 + 8))
      (s1.bits, s1.bitsLeft)
    -- `mask = (1 << n) - 1; shift_bits = self.bits_left - n`
    let mask := (1 <<< n) - 1
    let shift_bits := st.2 - n
    let res := (st.1 >>> shift_bits) &&& mask
    -- `self.bits_left -= n; mask = (1 << self.bits_left) - 1; self.bits &= mask`
    let bitsLeft' := st.2 - n
    let bits' := st.1 &&& ((1 <<< bitsLeft') - 1)
    .ok (res, { s1 with bits := bits', bitsLeft := bitsLeft' })

/-- Source `KaitaiStream.read_bits_int_le(n)`: top-up loop
`self.bits |= (byte << self.bits_left); self.bits_left += 8` per
acquired byte, then extract the low `n` bits of the accumulator. -/
def read_bits_int_le (s : ByteStream) (n : Nat) : Except Err (Nat × ByteStream) :=
  match (if s.bitsLeft < n then
      read_bytes s (((n - s.bitsLeft - 1) / 8 + 1 : Nat) : Int)
    else .ok ([], s)) with
  | .error e => .error e
  | .ok (buf, s1) =>
    let st := buf.foldl (fun p byte => (p.1 ||| (byte <<< p.2), p.2 + 8))
      (s1.bits, s1.bitsLeft)
    -- `mask = (1 << n) - 1; res = self.bits & mask`
    let mask := (1 <<< n) - 1
    let res := st.1 &&& mask
    -- `self.bits >>= n; self.bits_left -= n`
    let bits' := st.1 >>> n
    let bitsLeft' := st.2 - n
    .ok (res, { s1 with bits := bits', bitsLeft := bitsLeft' })

/-- Source `KaitaiStream.read_u1`: read one byte, then `struct.unpack('B', r)[0]`,
which is the byte value itself. -/
def read_u1 (s : ByteStream) : Except Err (Nat × ByteStream) :=
  match read_bytes s 1 with
  | .error e => .error e
  | .ok (r, s') => .ok (r.headD 0, s')

/-- A byte sink for the write path.  `KaitaiStream.write_bytes` calls
`io.write(data, size)` on a caller-supplied sink object; this model is a
sink that appends to a buffer and reports every byte as accepted. -/
structure Sink where
  buf : List Nat
  deriving DecidableEq, Repr

/-- The sink's `io.write(data, size)`: append, return the accepted count. -/
def sinkWrite (sink : Sink) (d : List Nat) : Nat × Sink :=
  (d.length, ⟨sink.buf ++ d⟩)

/-- Python `struct.Struct('B').pack(num)`: one unsigned byte; `struct.error`
when the value is outside `0..255`. -/
def pack_u1 (num : Int) : Except Err (List Nat) :=
  if 0 ≤ num ∧ num ≤ 255 then .ok [num.toNat] else .error .other

/-- Source `KaitaiStream.write_bytes(io, data)`: raise on a `None` buffer,
write via the sink, raise when the accepted count differs from the
requested size.  The sink state is returned alongside the result. -/
def write_bytes (sink : Sink) (d : Option (List Nat)) :
    Except Err Nat × Sink :=
  match d with
  | none => (.error .other, sink)
  | some d =>
    let (num_written, sink') := sinkWrite sink d
    if num_written = d.length then (.ok num_written, sink')
    else (.error .other, sink')

/-- Source `KaitaiStream.write_u1(io, num)`: the source guards with
`if num not in range(-128, 128): return None` (the signed 1-byte range,
as in `write_s1`) and otherwise packs with the unsigned packer `'B'`
and writes.  `Except.ok none` models the bare `return None`. -/
def write_u1 (sink : Sink) (num : Int) :
    Except Err (Option Nat) × Sink :=
  if num < -128 ∨ 128 ≤ num then (.ok none, sink)
  else
    match pack_u1 num with
    | .error e => (.error e, sink)
    | .ok d =>
      match write_bytes sink (some d) with
      | (.error e, sink') => (.error e, sink')
      | (.ok n, sink') => (.ok (some n), sink')

/-- Source `KaitaiStream.process_xor_one(data, key)`:
`bytes(v ^ key for v in data)`. -/
def process_xor_one (data : List Nat) (key : Nat) : List Nat :=
  data.map (fun v => v ^^^ key)

/-- Python `itertools.cycle(key)` truncated to `n` elements.  A cycle of an
empty iterable is an empty iterator (its first `next()` finds nothing),
so `zip` against it yields nothing. -/
def cycleTake (key : List Nat) (n : Nat) : List Nat :=
  if key.isEmpty then []
  else (List.range n).map (fun i => key.getD (i % key.length) 0)

/-- Source `KaitaiStream.process_xor_many(data, key)`:
`bytes(a ^ b for a, b in zip(data, itertools.cycle(key)))`.  There is no
empty-key check in the source: an empty key makes the zip empty and the
result is the empty byte string. -/
def process_xor_many (data key : List Nat) : List Nat :=
  List.zipWith (fun a b => a ^^^ b) data (cycleTake key data.length)

/-- Source `KaitaiStream.process_rotate_left(data, amount, group_size)`:
unsupported group sizes raise; for `group_size == 1` each byte becomes
`(b << amount) & 0xff | (b >> anti_amount)` with
`anti_amount = -amount & mask`, `mask = group_size * 8 - 1`.  For a
non-negative `amount` and the all-ones mask `2^k - 1`, Python's
`-amount & mask` is `(-amount) mod 2^k`, here written with `Int.emod`
(whose result is non-negative).  Note the left shift uses the raw
`amount`, not `amount mod 8`. -/
def process_rotate_left (data : List Nat) (amount : Nat) (group_size : Nat) :
    Except Err (List Nat) :=
  if group_size ≠ 1 then .error .other
  else
    let anti_amount := ((-(amount : Int)) % ((group_size * 8 : Nat) : Int)).toNat
    .ok (data.map (fun b => ((b <<< amount) &&& 0xff) ||| (b >>> anti_amount)))

/-- The spec's per-byte formula for `rotate_left_bits` with
`group_size = 1`: circular left rotation by `amount mod 8` bits,
`(b << (amount mod 8) | b >> (8 - amount mod 8)) & 0xFF`.  Declared for
comparison with `process_rotate_left`; not part of the source. -/
def rotl8 (amount b : Nat) : Nat :=
  ((b <<< (amount % 8)) ||| (b >>> (8 - amount % 8))) % 256

/-- Loop body of `KaitaiStream.read_bytes_term`, acting on the bytes
after the cursor.  Returns the accumulated bytes and the net cursor
advance: each `self._io.read(1)` advances by one, and the
`self._io.seek(-1, SEEK_CUR)` taken when the terminator is found but
not consumed undoes the last advance. -/
def read_bytes_term_go (remaining : List Nat) (term : Nat)
    (include_term consume_term eos_error : Bool) (acc : List Nat)
    (advanced : Nat) : Except Err (List Nat × Nat) :=
  match remaining with
  | [] => if eos_error then .error .other else .ok (acc, advanced)
  | c :: rest =>
    if c = term then
      .ok (acc ++ (if include_term then [c] else []),
           advanced + (if consume_term then 1 else 0))
    else
      read_bytes_term_go rest term include_term consume_term eos_error
        (acc ++ [c]) (advanced + 1)

/-- Source `KaitaiStream.read_bytes_term(term, include_term, consume_term,
eos_error)`: scan byte-by-byte for the terminator. -/
def read_bytes_term (s : ByteStream) (term : Nat)
    (include_term consume_term eos_error : Bool) :
    Except Err (List Nat × ByteStream) :=
  match read_bytes_term_go (s.data.drop s.pos) term include_term
      consume_term eos_error [] 0 with
  | .error e => .error e
  | .ok (r, adv) => .ok (r, { s with pos := s.pos + adv })

/-- The operations `KaitaiStream.size` performs on `self._io`, kept
abstract over the sink/source object the caller supplied.  Each
operation may raise (`none`) — e.g. `tell` on an unseekable or closed
file object — and returns the object state it left behind. -/
structure FileOps (σ : Type) where
  tell : σ → Option Nat × σ
  seekEnd : σ → Option Unit × σ
  seekTo : Nat → σ → Option Unit × σ

/-- Source `KaitaiStream.size`: `cur_pos = io.tell(); io.seek(0, SEEK_END);
full_size = io.tell(); io.seek(cur_pos); return full_size`.  There is
no `try`/`finally` in the source, so a failure in any step propagates
at once and the remaining steps — including the restoring seek — do
not run. -/
def size {σ : Type} (ops : FileOps σ) (s : σ) : Option Nat × σ :=
  match ops.tell s with
  | (none, s1) => (none, s1)
  | (some cur_pos, s1) =>
    match ops.seekEnd s1 with
    | (none, s2) => (none, s2)
    | (some _, s2) =>
      match ops.tell s2 with
      | (none, s3) => (none, s3)
      | (some full_size, s3) =>
        match ops.seekTo cur_pos s3 with
        | (none, s4) => (none, s4)
        | (some _, s4) => (some full_size, s4)

/-- The well-behaved `BytesIO` source: `tell` and `seek` always
succeed, `seek(0, SEEK_END)` moves to the data length. -/
def pureFileOps : FileOps ByteStream where
  tell s := (some s.pos, s)
  seekEnd s := (some (), { s with pos := s.data.length })
  seekTo n s := (some (), { s with pos := n })

/-- A source whose `tell` raises once the cursor sits at `badPos`
(as a real file object can — `OSError` from an unseekable or closed
stream); `seek` behaves like `BytesIO`. -/
def fragileFileOps (badPos : Nat) : FileOps ByteStream where
  tell s := (if s.pos = badPos then none else some s.pos, s)
  seekEnd s := (some (), { s with pos := s.data.length })
  seekTo n s := (some (), { s with pos := n })

/-- One bit-level operation on the stream, for stating the accumulator
invariant over call sequences. -/
inductive BitOp where
  | be (n : Nat)
  | le (n : Nat)
  | align
  deriving DecidableEq, Repr

/-- Run one bit-level operation, keeping the stream state. -/
def runBitOp (s : ByteStream) : BitOp → Except Err ByteStream
  | .be n => (read_bits_int_be s n).map Prod.snd
  | .le n => (read_bits_int_le s n).map Prod.snd
  | .align => .ok (align_to_byte s)

/-- Run a sequence of bit-level operations; stops at the first raise. -/
def runBitOps (s : ByteStream) : List BitOp → Except Err ByteStream
  | [] => .ok s
  | op :: rest =>
    match runBitOp s op with
    | .error e => .error e
    | .ok s' => runBitOps s' rest

/-- Both big-endian bit reads of a split of one byte, packaged for
exhaustive checking: read `n` bits then `8 - n` bits from a single-byte
source and test the recombination `(high <<< (8 - n)) ||| low == b`. -/
def checkSplitBE (b n : Nat) : Bool :=
  match read_bits_int_be (mkStream [b]) n with
  | .error _ => false
  | .ok (high, s1) =>
    match read_bits_int_be s1 (8 - n) with
    | .error _ => false
    | .ok (low, _) => (high <<< (8 - n)) ||| low == b

/-- Per-byte agreement of the source's rotation expression (raw shift
amount and Python `-amount & 7`) with the spec's mod-8 rotation formula
`rotl8`, for amounts `0..8`, packaged for exhaustive checking. -/
def checkRotByte (a b : Nat) : Bool :=
  (((b <<< a) &&& 0xff) |||
      (b >>> ((-(a : Int)) % ((1 * 8 : Nat) : Int)).toNat))
    == rotl8 a b

set_option maxRecDepth 4096 in
lemma checkSplitBE_all : ∀ b : Fin 256, ∀ n : Fin 8,
    checkSplitBE b.val n.val = true := by decide

/-- C3 — Big-endian bit-read complementarity: reading `n` bits and then
`8 - n` bits from a single-byte source `[b]` reconstructs the byte as
`(high <<< (8 - n)) ||| low = b`, for every `b < 256` and split
`0 < n < 8`. -/
theorem bits_be_split_reconstructs (b n high low : Nat)
    (s1 s2 : ByteStream) (hb : b < 256) (_hn0 : 0 < n) (hn8 : n < 8)
    (h1 : read_bits_int_be (mkStream [b]) n = .ok (high, s1))
    (h2 : read_bits_int_be s1 (8 - n) = .ok (low, s2)) :
    (high <<< (8 - n)) ||| low = b := by
  have h := checkSplitBE_all ⟨b, hb⟩ ⟨n, hn8⟩
  simp only [checkSplitBE, h1, h2, beq_iff_eq] at h
  exact h

theorem bits_be_split_reconstructs_witness : (5 <<< 5) ||| 5 = 165 :=
  bits_be_split_reconstructs 165 3 5 5 ⟨[165], 1, 5, 5⟩ ⟨[165], 1, 0, 0⟩
    (by decide) (by decide) (by decide) (by decide) (by decide)

lemma zipWith_xor_replicate (data : List Nat) (b : Nat) :
    List.zipWith (fun a k => a ^^^ k) data (List.replicate data.length b)
      = data.map (fun v => v ^^^ b) := by
  induction data with
  | nil => rfl
  | cons x xs ih => simp [List.replicate_succ, ih]

lemma cycleTake_singleton (b n : Nat) :
    cycleTake [b] n = List.replicate n b := by
  simp [cycleTake, Nat.mod_one]

/-- C6 (amended) — `process_xor_many` with an empty key returns the
empty byte string (no failure), and with a one-byte key it agrees with
`process_xor_one` on that byte. -/
theorem xor_many_empty_and_singleton (data : List Nat) (b : Nat) :
    process_xor_many data [] = [] ∧
    process_xor_many data [b] = process_xor_one data b := by
  refine ⟨by simp [process_xor_many, cycleTake], ?_⟩
  simp only [process_xor_many, process_xor_one, cycleTake_singleton]
  exact zipWith_xor_replicate data b

/-- C7 (amended) — On a well-behaved source, `size` returns the total
byte length and leaves the stream state — in particular the
caller-visible position — unchanged.  (When an underlying operation
fails mid-sequence there is no restore; see the counterexample.) -/
theorem size_pure_source_length_and_restore (s : ByteStream) :
    size pureFileOps s = (some s.data.length, s) := rfl

/-- C1 — The source's `write_u1` guards with the *signed* 1-byte range
`range(-128, 128)` (copied from `write_s1`) although it packs with the
unsigned packer `'B'`: encoding `256` silently returns `None` with
nothing written (no range-violation raised), the representable unsigned
value `200` is likewise rejected, and `-5` passes the guard only to
crash in the packer (`struct.error`). -/
theorem write_u1_wrong_range_guard :
    write_u1 ⟨[]⟩ 256 = (.ok none, ⟨[]⟩) ∧
    write_u1 ⟨[]⟩ 200 = (.ok none, ⟨[]⟩) ∧
    write_u1 ⟨[]⟩ (-5) = (.error .other, ⟨[]⟩) := by decide

/-- C2 — The unsigned 1-byte round trip fails on the representable
value `200`: `write_u1` writes nothing to the sink (its guard is the
signed range of `write_s1`), so decoding the produced bytes hits end of
stream instead of returning `200`. -/
theorem u1_roundtrip_fails_at_200 :
    (write_u1 ⟨[]⟩ 200).2.buf = [] ∧
    read_u1 (mkStream (write_u1 ⟨[]⟩ 200).2.buf) = .error .eof := by decide

/-- C4 — On the two-byte source `[0xA5, 0x3C]`, reading 12 bits
big-endian yields `0xA53` while reading 12 bits little-endian from a
fresh stream over the same bytes yields `0xCA5`; the two results
differ. -/
theorem bits_be_le_diverge_on_A53C :
    (read_bits_int_be (mkStream [0xA5, 0x3C]) 12).map Prod.fst = .ok 0xA53 ∧
    (read_bits_int_le (mkStream [0xA5, 0x3C]) 12).map Prod.fst = .ok 0xCA5 ∧
    (0xA53 : Nat) ≠ 0xCA5 := by decide

/-- C5 (counterexample) — `process_rotate_left` does not normalize the
left-shift amount modulo 8: at `amount = 9` on the single byte `0x01`
it yields `0x00`, while `amount = 9 mod 8 = 1` (the rotation the claim
prescribes) yields `0x02`, so the result does not equal the result for
`amount mod 8`. -/
theorem rotate_amount_nine_not_mod8 :
    process_rotate_left [1] 9 1 = .ok [0] ∧
    process_rotate_left [1] (9 % 8) 1 = .ok [2] ∧
    rotl8 9 1 = 2 ∧
    process_rotate_left [1] 9 1 ≠ process_rotate_left [1] (9 % 8) 1 := by
  decide

/-- C6 (counterexample) — `process_xor_many` has no empty-key check:
with an empty key the `zip` against `itertools.cycle(b'')` is empty and
the call returns the empty byte string instead of failing with an
invalid-argument condition. -/
theorem xor_many_empty_key_returns_empty :
    process_xor_many [7, 8, 9] [] = [] := by decide

/-- C7 (counterexample) — `size` has no `try`/`finally`: on a source
whose `tell` raises when the cursor sits at the end (position 5), a
size query from position 2 fails after the seek-to-end and leaves the
caller-visible position at 5, not restored to 2. -/
theorem size_failure_corrupts_position :
    (size (fragileFileOps 5) ⟨[10, 20, 30, 40, 50], 2, 0, 0⟩).1 = none ∧
    (size (fragileFileOps 5) ⟨[10, 20, 30, 40, 50], 2, 0, 0⟩).2.pos = 5 := by
  decide

/-- C8 — On a stream with exactly `n` bytes remaining (and no pending
accumulator bits): requesting `n + 1` bytes fails with `EOFError`;
requesting exactly `n` succeeds, returns those bytes, and leaves the
stream at end where `is_eof` is true; and any negative request fails
with `ValueError`. -/
theorem read_bytes_eof_boundary (s : ByteStream) (n : Nat) (m : Int)
    (hrem : s.data.length = s.pos + n) (hbits : s.bitsLeft = 0)
    (hm : m < 0) :
    read_bytes s ((n : Int) + 1) = .error .eof ∧
    read_bytes s (n : Int)
      = .ok (s.data.drop s.pos, { s with pos := s.pos + n }) ∧
    is_eof { s with pos := s.pos + n } = true ∧
    read_bytes s m = .error .invalidArg := by
  have hlen : (s.data.drop s.pos).length = n := by
    simp only [List.length_drop]
    omega
  refine ⟨?_, ?_, ?_, ?_⟩
  · simp only [read_bytes, ioRead]
    rw [if_neg (by omega)]
    have ht : ((n : Int) + 1).toNat = n + 1 := by omega
    rw [ht, if_pos (by simp [List.length_take, hlen])]
  · simp only [read_bytes, ioRead]
    rw [if_neg (by omega)]
    have ht : ((n : Int)).toNat = n := by omega
    have htake : (s.data.drop s.pos).take n = s.data.drop s.pos :=
      List.take_of_length_le (by omega)
    rw [ht, htake, if_neg (by omega), hlen]
  · simp only [is_eof]
    rw [if_neg (by omega)]
    have hdrop : s.data.drop (s.pos + n) = [] :=
      List.drop_eq_nil_of_le (by omega)
    simp [hdrop]
  · simp only [read_bytes]
    rw [if_pos hm]

theorem read_bytes_eof_boundary_witness :
    read_bytes ⟨[1, 2, 3], 1, 0, 0⟩ 3 = .error .eof ∧
    read_bytes ⟨[1, 2, 3], 1, 0, 0⟩ 2 = .ok ([2, 3], ⟨[1, 2, 3], 3, 0, 0⟩) ∧
    is_eof ⟨[1, 2, 3], 3, 0, 0⟩ = true ∧
    read_bytes ⟨[1, 2, 3], 1, 0, 0⟩ (-1) = .error .invalidArg :=
  read_bytes_eof_boundary ⟨[1, 2, 3], 1, 0, 0⟩ 2 (-1)
    (by decide) (by decide) (by decide)

/-- C9 — On the source `"abc\x00def"`, the terminator scan with
terminator `0`, `include_term = false`, `consume_term = false` returns
`"abc"` and leaves the cursor at the `0x00` byte (position 3), so the
next one-byte read returns `0x00`. -/
theorem terminator_scan_abc :
    read_bytes_term (mkStream [97, 98, 99, 0, 100, 101, 102]) 0
        false false true
      = .ok ([97, 98, 99], ⟨[97, 98, 99, 0, 100, 101, 102], 3, 0, 0⟩) ∧
    (read_u1 ⟨[97, 98, 99, 0, 100, 101, 102], 3, 0, 0⟩).map Prod.fst
      = .ok 0 := by decide

lemma foldBE_snd (buf : List Nat) (acc : Nat × Nat) :
    (buf.foldl (fun p byte => ((p.1 <<< 8) ||| byte, p.2 + 8)) acc).2
      = acc.2 + 8 * buf.length := by
  induction buf generalizing acc with
  | nil => simp
  | cons b rest ih =>
    simp only [List.foldl_cons, ih, List.length_cons]
    omega

lemma foldLE_snd (buf : List Nat) (acc : Nat × Nat) :
    (buf.foldl (fun p byte => (p.1 ||| (byte <<< p.2), p.2 + 8)) acc).2
      = acc.2 + 8 * buf.length := by
  induction buf generalizing acc with
  | nil => simp
  | cons b rest ih =>
    simp only [List.foldl_cons, ih, List.length_cons]
    omega

lemma read_bytes_nat_ok (s : ByteStream) (k : Nat) (buf : List Nat)
    (s' : ByteStream) (h : read_bytes s (k : Int) = .ok (buf, s')) :
    buf.length = k ∧ s'.bits = s.bits ∧ s'.bitsLeft = s.bitsLeft := by
  simp only [read_bytes, ioRead] at h
  rw [if_neg (by omega)] at h
  have ht : ((k : Int)).toNat = k := by omega
  rw [ht] at h
  by_cases hc : ((s.data.drop s.pos).take k).length < k
  · rw [if_pos hc] at h; cases h
  · rw [if_neg hc] at h
    cases h
    refine ⟨?_, rfl, rfl⟩
    simp only [List.length_take] at hc ⊢
    omega

lemma read_bits_int_be_bitsLeft_le (s : ByteStream) (n r : Nat)
    (s' : ByteStream) (hs : s.bitsLeft ≤ 7)
    (h : read_bits_int_be s n = .ok (r, s')) : s'.bitsLeft ≤ 7 := by
  unfold read_bits_int_be at h
  by_cases hlt : s.bitsLeft < n
  · rw [if_pos hlt] at h
    cases hre : read_bytes s (((n - s.bitsLeft - 1) / 8 + 1 : Nat) : Int) with
    | error e => rw [hre] at h; cases h
    | ok p =>
      obtain ⟨buf, s1⟩ := p
      rw [hre] at h
      obtain ⟨hblen, _, hbleft⟩ := read_bytes_nat_ok s _ buf s1 hre
      cases h
      simp only [foldBE_snd, hbleft, hblen]
      omega
  · rw [if_neg hlt] at h
    cases h
    simp only [List.foldl_nil]
    omega

lemma read_bits_int_le_bitsLeft_le (s : ByteStream) (n r : Nat)
    (s' : ByteStream) (hs : s.bitsLeft ≤ 7)
    (h : read_bits_int_le s n = .ok (r, s')) : s'.bitsLeft ≤ 7 := by
  unfold read_bits_int_le at h
  by_cases hlt : s.bitsLeft < n
  · rw [if_pos hlt] at h
    cases hre : read_bytes s (((n - s.bitsLeft - 1) / 8 + 1 : Nat) : Int) with
    | error e => rw [hre] at h; cases h
    | ok p =>
      obtain ⟨buf, s1⟩ := p
      rw [hre] at h
      obtain ⟨hblen, _, hbleft⟩ := read_bytes_nat_ok s _ buf s1 hre
      cases h
      simp only [foldLE_snd, hbleft, hblen]
      omega
  · rw [if_neg hlt] at h
    cases h
    simp only [List.foldl_nil]
    omega

lemma runBitOp_bitsLeft_le (s : ByteStream) (op : BitOp) (s1 : ByteStream)
    (hs : s.bitsLeft ≤ 7) (h : runBitOp s op = .ok s1) :
    s1.bitsLeft ≤ 7 := by
  cases op with
  | be n =>
    simp only [runBitOp] at h
    cases hre : read_bits_int_be s n with
    | error e => rw [hre] at h; cases h
    | ok p =>
      rw [hre] at h
      simp only [Except.map] at h
      cases h
      exact read_bits_int_be_bitsLeft_le s n p.1 p.2 hs (by rw [hre])
  | le n =>
    simp only [runBitOp] at h
    cases hre : read_bits_int_le s n with
    | error e => rw [hre] at h; cases h
    | ok p =>
      rw [hre] at h
      simp only [Except.map] at h
      cases h
      exact read_bits_int_le_bitsLeft_le s n p.1 p.2 hs (by rw [hre])
  | align =>
    simp only [runBitOp, align_to_byte] at h
    cases h
    exact Nat.zero_le 7

lemma runBitOps_bitsLeft_le (ops : List BitOp) (s s' : ByteStream)
    (hs : s.bitsLeft ≤ 7) (h : runBitOps s ops = .ok s') :
    s'.bitsLeft ≤ 7 := by
  induction ops generalizing s with
  | nil =>
    unfold runBitOps at h
    cases h
    exact hs
  | cons op rest ih =>
    unfold runBitOps at h
    cases hop : runBitOp s op with
    | error e => rw [hop] at h; cases h
    | ok s1 =>
      rw [hop] at h
      exact ih s1 (runBitOp_bitsLeft_le s op s1 hs hop) h

/-- C10 — From a freshly constructed (hence byte-aligned) stream, after
any successful sequence of `read_bits_int_be` / `read_bits_int_le` /
`align_to_byte` calls, the accumulator's valid-bit count `bits_left` is
at most 7 (it is a natural number, hence also at least 0): at most one
partial byte is ever carried between calls. -/
theorem bit_reads_carry_at_most_seven_bits (data : List Nat)
    (ops : List BitOp) (s' : ByteStream)
    (h : runBitOps (mkStream data) ops = .ok s') : s'.bitsLeft ≤ 7 :=
  runBitOps_bitsLeft_le ops (mkStream data) s' (by simp [mkStream]) h

theorem bit_reads_carry_at_most_seven_bits_witness :
    (⟨[255], 1, 31, 5⟩ : ByteStream).bitsLeft ≤ 7 :=
  bit_reads_carry_at_most_seven_bits [255] [BitOp.be 3] ⟨[255], 1, 31, 5⟩
    (by decide)

set_option maxRecDepth 4096 in
lemma checkRotByte_all : ∀ a : Fin 9, ∀ b : Fin 256,
    checkRotByte a.val b.val = true := by decide

set_option maxRecDepth 4096 in
lemma rotl8_identity : ∀ b : Fin 256,
    rotl8 0 b.val = b.val ∧ rotl8 8 b.val = b.val := by decide

lemma process_rotate_left_eq_map_rotl8 (data : List Nat) (amount : Nat)
    (hd : ∀ b ∈ data, b < 256) (ha : amount ≤ 8) :
    process_rotate_left data amount 1 = .ok (data.map (rotl8 amount)) := by
  simp only [process_rotate_left]
  rw [if_neg (by simp)]
  congr 1
  apply List.map_congr_left
  intro b hb
  have h := checkRotByte_all ⟨amount, by omega⟩ ⟨b, hd b hb⟩
  simp only [checkRotByte, beq_iff_eq] at h
  exact h

lemma rotl8_mod (amount b : Nat) : rotl8 (amount % 8) b = rotl8 amount b := by
  have hm : amount % 8 % 8 = amount % 8 := Nat.mod_mod_of_dvd amount dvd_rfl
  simp only [rotl8, hm]

/-- C5 (amended) — For `group_size = 1` and `amount ≤ 8`, the result's
`i`-th byte is the circular left rotation of `data[i]` by
`amount mod 8` bits; amounts `0` and `8` are the identity, and the
result equals the result for `amount mod 8`.  (For `amount > 8` the
source applies the raw, un-normalized amount in the left shift, so the
mod-8 equivalence fails — see the counterexample.) -/
theorem rotate_left_group1_mod8_upto8 (data : List Nat) (amount : Nat)
    (hd : ∀ b ∈ data, b < 256) (ha : amount ≤ 8) :
    process_rotate_left data amount 1 = .ok (data.map (rotl8 amount)) ∧
    process_rotate_left data amount 1
      = process_rotate_left data (amount % 8) 1 ∧
    (amount = 0 ∨ amount = 8 → process_rotate_left data amount 1 = .ok data) := by
  have h1 := process_rotate_left_eq_map_rotl8 data amount hd ha
  have h2 := process_rotate_left_eq_map_rotl8 data (amount % 8) hd (by omega)
  refine ⟨h1, ?_, ?_⟩
  · rw [h1, h2]
    congr 1
    apply List.map_congr_left
    intro b _
    exact (rotl8_mod amount b).symm
  · intro hcase
    rw [h1]
    congr 1
    have hmap : data.map (rotl8 amount) = data.map id := by
      apply List.map_congr_left
      intro b hb
      rcases hcase with h0 | h8
      · rw [h0]
        exact (rotl8_identity ⟨b, hd b hb⟩).1
      · rw [h8]
        exact (rotl8_identity ⟨b, hd b hb⟩).2
    simpa using hmap

theorem rotate_left_group1_mod8_upto8_witness :
    process_rotate_left [1, 128] 7 1 = .ok ([1, 128].map (rotl8 7)) ∧
    process_rotate_left [1, 128] 7 1
      = process_rotate_left [1, 128] (7 % 8) 1 ∧
    ((7 : Nat) = 0 ∨ (7 : Nat) = 8 →
      process_rotate_left [1, 128] 7 1 = .ok [1, 128]) :=
  rotate_left_group1_mod8_upto8 [1, 128] 7 (by decide) (by decide)

end Kaitai
